import Mathlib

/-!
Verification of the Mirage exposure-synthesis specification.

The repository ships only `setup.py`; the core components (Readout Pattern
Model, Dark Ramp Resampler, Signal Accumulator, Noise & Detector Effects
Model, Dispersion Engine, Exposure Assembler) are therefore modelled from
the specification text. Times, rates and accumulated charges are modelled
with exact rationals.
-/

namespace Mirage

/-- Modelled from the spec: `ReadoutPattern` data model (sec. 3) — frame
time, frames per group, skipped frames per group, groups per integration,
integrations per exposure. Counts that the spec types as `int ≥ 0` are
naturals; validity is a separate predicate checked by the constructor. -/
structure ReadoutPattern where
  frame_time : ℚ
  nframes : ℕ
  nskip : ℕ
  ngroups : ℕ
  nints : ℕ
deriving DecidableEq, Repr

/-- Modelled from the spec: validity of a readout pattern — every count at
least 1 (nskip may be 0) and a positive frame time. -/
def ReadoutPattern.valid (p : ReadoutPattern) : Prop :=
  0 < p.frame_time ∧ 1 ≤ p.nframes ∧ 1 ≤ p.ngroups ∧ 1 ≤ p.nints

instance (p : ReadoutPattern) : Decidable p.valid := by
  unfold ReadoutPattern.valid; infer_instance

/-- Modelled from the spec: the error raised for malformed readout timing. -/
inductive InvalidPatternError where
  | invalidPattern : InvalidPatternError
deriving DecidableEq, Repr

/-- Modelled from the spec: constructing a `ReadoutPattern` fails with
`InvalidPatternError` if any count < 1 (nskip may be 0) or frame_time ≤ 0;
otherwise it succeeds synchronously. -/
def mkReadoutPattern (frame_time : ℚ) (nframes nskip ngroups nints : ℕ) :
    Except InvalidPatternError ReadoutPattern :=
  if (ReadoutPattern.mk frame_time nframes nskip ngroups nints).valid then
    Except.ok (ReadoutPattern.mk frame_time nframes nskip ngroups nints)
  else Except.error InvalidPatternError.invalidPattern

/-- Modelled from the spec: `group_time()` = `(nframes + nskip) * frame_time`. -/
def ReadoutPattern.group_time (p : ReadoutPattern) : ℚ :=
  ((p.nframes : ℚ) + (p.nskip : ℚ)) * p.frame_time

/-- Modelled from the spec: `elapsed_time(integration, group)` — cumulative
time since the start of the integration through the end of group `g`
(0-indexed); the clock resets at each integration boundary, so the value
depends only on the group index. -/
def ReadoutPattern.elapsed_time (p : ReadoutPattern) (g : ℕ) : ℚ :=
  ((g : ℚ) + 1) * p.group_time

/-- Modelled from the spec: `total_exposure_time()` — all integrations,
each running through the end of its last group. -/
def ReadoutPattern.total_exposure_time (p : ReadoutPattern) : ℚ :=
  (p.nints : ℚ) * p.elapsed_time (p.ngroups - 1)

/-- Modelled from the spec: `DarkRamp` data model (sec. 3) — a 4-D
accumulated-signal array indexed `[integration, group, y, x]` plus its
originating ReadoutPattern. The array is represented as a total function on
indices together with the shape. -/
structure DarkRamp where
  nints : ℕ
  ngroups : ℕ
  ny : ℕ
  nx : ℕ
  pattern : ReadoutPattern
  data : ℕ → ℕ → ℕ → ℕ → ℚ

/-- Modelled from the spec: `SignalRamp` data model (sec. 3) — a 4-D array
`[integration, group, y, x]` of accumulated electrons. -/
structure SignalRamp where
  nints : ℕ
  ngroups : ℕ
  ny : ℕ
  nx : ℕ
  data : ℕ → ℕ → ℕ → ℕ → ℚ

/-- Modelled from the spec: piecewise-linear interpolation through a list of
(elapsed time, accumulated signal) samples (sec. 4.2). Between bracketing
samples the value is linearly interpolated; beyond the last sample it is
extrapolated with the mean slope of the final segment; before the first
sample it is extrapolated with the slope of the first segment. -/
def interpPts : List (ℚ × ℚ) → ℚ → ℚ
  | [], _ => 0
  | [(_, y0)], _ => y0
  | [(x0, y0), (x1, y1)], t => y0 + (t - x0) * ((y1 - y0) / (x1 - x0))
  | (x0, y0) :: (x1, y1) :: q :: rest, t =>
      if t ≤ x1 then y0 + (t - x0) * ((y1 - y0) / (x1 - x0))
      else interpPts ((x1, y1) :: q :: rest) t

/-- Modelled from the spec: the per-pixel sequence of source samples the
Dark Ramp Resampler interpolates over — one (elapsed time, accumulated
signal) pair per source group of one source integration (sec. 4.2). -/
def sourcePoints (d : DarkRamp) (i y x : ℕ) : List (ℚ × ℚ) :=
  (List.range d.ngroups).map fun k => (d.pattern.elapsed_time k, d.data i k y x)

/-- Modelled from the spec: Dark Ramp Resampler (sec. 4.2). For each target
group, compute its elapsed time under the target pattern and interpolate
(or extrapolate, past the last sample, with the mean slope of the final
segment) the per-pixel accumulated signal of the corresponding source
integration; when the target requests more integrations than the source
provides, cycle through source integrations by index modulo the available
count. -/
def resampleDark (d : DarkRamp) (tgt : ReadoutPattern) : DarkRamp :=
  { nints := tgt.nints
    ngroups := tgt.ngroups
    ny := d.ny
    nx := d.nx
    pattern := tgt
    data := fun i g y x =>
      interpPts (sourcePoints d (i % d.nints) y x) (tgt.elapsed_time g) }

/-- Modelled from the spec: Signal Accumulator (sec. 4.3) — the noiseless
SignalRamp is the resampled dark ramp plus the seed rate image multiplied by
`elapsed_time(integration, group)`, elapsed time restarting at zero at each
integration boundary. -/
def accumulateSignal (darkRes : DarkRamp) (seed : ℕ → ℕ → ℚ) : SignalRamp :=
  { nints := darkRes.nints
    ngroups := darkRes.ngroups
    ny := darkRes.ny
    nx := darkRes.nx
    data := fun i g y x =>
      darkRes.data i g y x + seed y x * darkRes.pattern.elapsed_time g }

/-- Modelled from the spec: the sticky per-pixel saturation flag (sec. 4.4
step 3) — a pixel is flagged in group `g` when its ideal accumulated charge
exceeded the configured threshold in group `g` or in any earlier group of
the same integration. -/
def satFlag (ideal : ℕ → ℚ) (thresh : ℚ) : ℕ → Bool
  | 0 => decide (thresh < ideal 0)
  | g + 1 => satFlag ideal thresh g || decide (thresh < ideal (g + 1))

/-- Modelled from the spec: the saturated signal value (sec. 4.4 step 3) —
clipped to the threshold exactly while the sticky flag is set, the ideal
value otherwise. -/
def satValue (ideal : ℕ → ℚ) (thresh : ℚ) (g : ℕ) : ℚ :=
  if satFlag ideal thresh g then thresh else ideal g

/-- Modelled from the spec: the saturation stage of the Noise & Detector
Effects Model — returns the clipped SignalRamp together with the parallel
data-quality array of saturation flags. -/
def applySaturation (r : SignalRamp) (thresh : ℚ) :
    SignalRamp × (ℕ → ℕ → ℕ → ℕ → Bool) :=
  (⟨r.nints, r.ngroups, r.ny, r.nx,
      fun i g y x => satValue (fun g2 => r.data i g2 y x) thresh g⟩,
    fun i g y x => satFlag (fun g2 => r.data i g2 y x) thresh g)

/-- Modelled from the spec: the single seedable pseudo-random generator —
one 64-bit linear-congruential mixing step; every stochastic stage derives
all of its draws from the exposure's seed. -/
def lcgStep (s : ℕ) : ℕ :=
  (6364136223846793005 * s + 1442695040888963407) % 2 ^ 64

/-- Modelled from the spec: incorporate one index into the generator state. -/
def mixNat (s n : ℕ) : ℕ := lcgStep (s + n + 1)

/-- Modelled from the spec: the generator draw used at a given stage and
array position, derived deterministically from the exposure seed. -/
def drawAt (seed stage i g y x : ℕ) : ℕ :=
  mixNat (mixNat (mixNat (mixNat (mixNat seed stage) i) g) y) x

/-- Modelled from the spec: the Poisson sampler for shot noise is an
injected capability; it is modelled as a deterministic function of the
generator draw and the requested mean. -/
def poissonDraw (u : ℕ) (mean : ℚ) : ℚ :=
  mean + ((u % 5 : ℕ) : ℚ) - 2

/-- Modelled from the spec: the Gaussian sampler for read noise, modelled
as a deterministic function of the generator draw and the sigma. -/
def gaussDraw (u : ℕ) (sigma : ℚ) : ℚ :=
  sigma * ((((u % 1001 : ℕ) : ℚ) - 500) / 500)

/-- Modelled from the spec: group-to-group incremental signal of a ramp
(the quantity shot noise resamples, sec. 4.4 step 1). -/
def increment (r : SignalRamp) (i g y x : ℕ) : ℚ :=
  if g = 0 then r.data i 0 y x else r.data i g y x - r.data i (g - 1) y x

/-- Modelled from the spec: shot noise (sec. 4.4 step 1) — replace each
group-to-group increment with a Poisson-distributed sample of the same
mean, then re-accumulate cumulatively. -/
def applyShotNoise (seed : ℕ) (r : SignalRamp) : SignalRamp :=
  ⟨r.nints, r.ngroups, r.ny, r.nx, fun i g y x =>
    ∑ k ∈ Finset.range (g + 1), poissonDraw (drawAt seed 1 i k y x) (increment r i k y x)⟩

/-- Modelled from the spec: cosmic-ray injection (sec. 4.4 step 2) — at a
seeded per-pixel hit rate, deposit a seeded energy at a seeded group and
propagate it additively to every subsequent group of the integration. -/
def applyCosmicRays (seed ratePermille : ℕ) (r : SignalRamp) : SignalRamp :=
  ⟨r.nints, r.ngroups, r.ny, r.nx, fun i g y x =>
    r.data i g y x +
      if drawAt seed 2 i 0 y x % 1000 < ratePermille ∧
          drawAt seed 3 i 0 y x % r.ngroups ≤ g then
        ((drawAt seed 4 i 0 y x % 100 : ℕ) : ℚ)
      else 0⟩

/-- Modelled from the spec: polynomial evaluation of the externally
supplied non-linearity correction curve (sec. 4.4 step 3). -/
def polyEval (cs : List ℚ) (v : ℚ) : ℚ :=
  cs.foldr (fun c acc => c + v * acc) 0

/-- Modelled from the spec: non-linearity (sec. 4.4 step 3) — map ideal
accumulated charge through the supplied polynomial curve. -/
def applyNonlinearity (cs : List ℚ) (r : SignalRamp) : SignalRamp :=
  ⟨r.nints, r.ngroups, r.ny, r.nx, fun i g y x => polyEval cs (r.data i g y x)⟩

/-- Modelled from the spec: read noise (sec. 4.4 step 4) — an independent
seeded Gaussian sample added to each group-level value, not accumulated
across groups. -/
def applyReadNoise (seed : ℕ) (sigma : ℚ) (r : SignalRamp) : SignalRamp :=
  ⟨r.nints, r.ngroups, r.ny, r.nx, fun i g y x =>
    r.data i g y x + gaussDraw (drawAt seed 5 i g y x) sigma⟩

/-- Modelled from the spec: ramp lookup with integer pixel coordinates,
zero outside the detector, used by the IPC convolution. -/
def dataAtInt (r : SignalRamp) (i g : ℕ) (y x : ℤ) : ℚ :=
  if 0 ≤ y ∧ y < (r.ny : ℤ) ∧ 0 ≤ x ∧ x < (r.nx : ℤ) then
    r.data i g y.toNat x.toNat
  else 0

/-- Modelled from the spec: inter-pixel capacitance (sec. 4.4 step 5) —
convolve each group's 2-D frame with a small fixed 3×3 kernel. -/
def applyIPC (kernel : ℕ → ℕ → ℚ) (r : SignalRamp) : SignalRamp :=
  ⟨r.nints, r.ngroups, r.ny, r.nx, fun i g y x =>
    ∑ ky ∈ Finset.range 3, ∑ kx ∈ Finset.range 3,
      kernel ky kx * dataAtInt r i g ((y : ℤ) + ky - 1) ((x : ℤ) + kx - 1)⟩

/-- Modelled from the spec: the detector-effects configuration consumed by
the Noise & Detector Effects Model, with each stage individually
enabled or disabled. -/
structure DetectorEffectsConfig where
  shot_noise : Bool
  cosmic_rays : Bool
  cosmic_ray_rate_permille : ℕ
  nonlinearity : Bool
  nonlin_coeffs : List ℚ
  saturation : Bool
  saturation_threshold : ℚ
  read_noise : Bool
  read_noise_sigma : ℚ
  ipc : Bool
  ipc_kernel : ℕ → ℕ → ℚ

/-- Modelled from the spec: `ExposureCube` — final output, same shape as
the SignalRamp, plus the parallel data-quality array. -/
structure ExposureCube where
  nints : ℕ
  ngroups : ℕ
  ny : ℕ
  nx : ℕ
  data : ℕ → ℕ → ℕ → ℕ → ℚ
  dq : ℕ → ℕ → ℕ → ℕ → Bool

/-- Modelled from the spec: the Exposure Assembler (sec. 4.6) — package the
final SignalRamp and data-quality array into the immutable ExposureCube. -/
def assembleExposure (r : SignalRamp) (dq : ℕ → ℕ → ℕ → ℕ → Bool) : ExposureCube :=
  ⟨r.nints, r.ngroups, r.ny, r.nx, r.data, dq⟩

/-- Modelled from the spec: the core entry point
`synthesize_exposure(seed_image, dark_ramp, readout_pattern,
detector_effects_config, random_seed)` — resample the dark, accumulate the
seed signal, apply the noise stages in their fixed documented order, and
assemble the ExposureCube. All randomness is derived from `rngSeed`. -/
def synthesize_exposure (seed_image : ℕ → ℕ → ℚ) (dark : DarkRamp)
    (pattern : ReadoutPattern) (cfg : DetectorEffectsConfig) (rngSeed : ℕ) :
    ExposureCube :=
  let darkRes := resampleDark dark pattern
  let r0 := accumulateSignal darkRes seed_image
  let r1 := if cfg.shot_noise then applyShotNoise rngSeed r0 else r0
  let r2 := if cfg.cosmic_rays then
      applyCosmicRays (lcgStep rngSeed) cfg.cosmic_ray_rate_permille r1
    else r1
  let r3 := if cfg.nonlinearity then applyNonlinearity cfg.nonlin_coeffs r2 else r2
  let r4 := if cfg.saturation then (applySaturation r3 cfg.saturation_threshold).1 else r3
  let dq := if cfg.saturation then (applySaturation r3 cfg.saturation_threshold).2
    else fun _ _ _ _ => false
  let r5 := if cfg.read_noise then
      applyReadNoise (lcgStep (lcgStep rngSeed)) cfg.read_noise_sigma r4
    else r4
  let r6 := if cfg.ipc then applyIPC cfg.ipc_kernel r5 else r5
  assembleExposure r6 dq

/-- Modelled from the spec: one wavelength bin of a wavelength-resolved
SeedImage — a wavelength and the rate image carried at that wavelength. -/
structure WaveBin where
  wavelength : ℚ
  rate : ℕ → ℕ → ℚ

/-- Modelled from the spec: a wavelength-resolved SeedImage — a stack of
wavelength bins all sharing one ny × nx pixel grid. -/
structure WaveSeedImage where
  ny : ℕ
  nx : ℕ
  bins : List WaveBin

/-- Modelled from the spec: a SpectralTrace for one spectral order — its
sampled wavelength domain together with the displacement `(dx, dy)` and
relative throughput it defines on that domain. -/
structure SpectralTrace where
  lam_min : ℚ
  lam_max : ℚ
  dispx : ℚ → ℚ
  dispy : ℚ → ℚ
  throughput : ℚ → ℚ

/-- Modelled from the spec: a wavelength lies within the trace's sampled
wavelength domain. -/
def SpectralTrace.covers (tr : SpectralTrace) (lam : ℚ) : Prop :=
  tr.lam_min ≤ lam ∧ lam ≤ tr.lam_max

instance (tr : SpectralTrace) (lam : ℚ) : Decidable (tr.covers lam) := by
  unfold SpectralTrace.covers; infer_instance

/-- Modelled from the spec: bilinear (sub-pixel) deposition weight — the
fraction of a unit of flux at continuous detector coordinate `c` deposited
into the pixel with index `j` (sec. 4.5). -/
def bw (c : ℚ) (j : ℕ) : ℚ :=
  if (j : ℤ) = ⌊c⌋ then 1 - (c - ⌊c⌋)
  else if (j : ℤ) = ⌊c⌋ + 1 then c - ⌊c⌋
  else 0

/-- Modelled from the spec: contribution of one wavelength bin through one
trace to detector pixel `(y, x)` — each source pixel's flux is displaced by
the trace's `(dx, dy)` at the bin's wavelength, attenuated by the relative
throughput, and deposited bilinearly; bins outside the trace's wavelength
domain contribute nothing. -/
def depositBin (ny nx : ℕ) (b : WaveBin) (tr : SpectralTrace) (y x : ℕ) : ℚ :=
  if tr.covers b.wavelength then
    ∑ py ∈ Finset.range ny, ∑ px ∈ Finset.range nx,
      b.rate py px * tr.throughput b.wavelength *
        bw ((py : ℚ) + tr.dispy b.wavelength) y *
        bw ((px : ℚ) + tr.dispx b.wavelength) x
  else 0

/-- Modelled from the spec: the Dispersion Engine (sec. 4.5) — the
dispersed 2-D rate image, summing contributions of all wavelength bins and
all active orders additively onto the detector grid. -/
def disperse (seed : WaveSeedImage) (traces : List SpectralTrace) (y x : ℕ) : ℚ :=
  (seed.bins.map fun b =>
    (traces.map fun tr => depositBin seed.ny seed.nx b tr y x).sum).sum

/-- Modelled from the spec: the total flux carried by one wavelength bin. -/
def binFlux (seed : WaveSeedImage) (b : WaveBin) : ℚ :=
  ∑ py ∈ Finset.range seed.ny, ∑ px ∈ Finset.range seed.nx, b.rate py px

/-- Modelled from the spec: the total flux of a wavelength-resolved
SeedImage. -/
def totalFlux (seed : WaveSeedImage) : ℚ :=
  (seed.bins.map fun b => binFlux seed b).sum

/-- Concrete scene for exercising the Dispersion Engine: a 3×3 grid with
unit flux at pixel (1,1) carried at wavelength 1. -/
def dispSeedW : WaveSeedImage :=
  ⟨3, 3, [⟨1, fun py px => if py = 1 ∧ px = 1 then 1 else 0⟩]⟩

/-- Concrete trace for exercising the Dispersion Engine: domain [0, 2],
displacement (1/2, 1/2), unit relative throughput. -/
def dispTraceW : SpectralTrace :=
  ⟨0, 2, fun _ => 1 / 2, fun _ => 1 / 2, fun _ => 1⟩

/-- Concrete trace with the same domain and displacement as the unit
throughput trace above, but relative throughput 1/2 everywhere: it covers
the scene's wavelength and keeps the displaced footprint in-grid, yet
attenuates the flux. -/
def dispTraceHalf : SpectralTrace :=
  ⟨0, 2, fun _ => 1 / 2, fun _ => 1 / 2, fun _ => 1 / 2⟩

/-- Python runtime error surfaced while executing a module top level. -/
inductive PyError where
  | nameError : String → PyError
deriving DecidableEq, Repr

/-- Names bound at module level by src/setup.py before the `setup(...)`
call: `from setuptools import setup` and `from setuptools import
find_packages` (lines 3-4). Nothing else is defined or imported in the
file. -/
def setupPyModuleBindings : List String := ["setup", "find_packages"]

/-- Bare identifiers referenced by the argument expressions of the
`setup(...)` call in src/setup.py, in Python's left-to-right evaluation
order: `find_packages` (the `packages` keyword, line 29) and `PyTest` (the
`cmdclass` dict value, line 45); every other argument is a literal. -/
def setupCallArgNames : List String := ["find_packages", "PyTest"]

/-- Evaluate a sequence of name references against an environment: the
first unbound name raises `NameError`, as in Python. -/
def evalNames (env : List String) : List String → Except PyError Unit
  | [] => Except.ok ()
  | n :: rest =>
      if n ∈ env then evalNames env rest else Except.error (PyError.nameError n)

/-- Executing src/setup.py as a script: the module bindings are
established, then the arguments of the `setup(...)` call are evaluated
(Python evaluates every argument before invoking the callee); only if all
of them resolve is `setup` itself entered. `builtins` is the ambient
builtin namespace of the execution environment. -/
def runSetupPy (builtins : List String) : Except PyError Unit :=
  evalNames (builtins ++ setupPyModuleBindings) setupCallArgNames

/-- C1: for every valid ReadoutPattern, `total_exposure_time()` equals
`nints * ngroups * (nframes + nskip) * frame_time` exactly, and
`group_time()` equals `(nframes + nskip) * frame_time`. -/
theorem readout_pattern_times (p : ReadoutPattern) (hv : p.valid) :
    p.total_exposure_time =
      (p.nints : ℚ) * (p.ngroups : ℚ) * ((p.nframes : ℚ) + (p.nskip : ℚ)) * p.frame_time ∧
    p.group_time = ((p.nframes : ℚ) + (p.nskip : ℚ)) * p.frame_time := by
  obtain ⟨-, -, hg, -⟩ := hv
  constructor
  · unfold ReadoutPattern.total_exposure_time ReadoutPattern.elapsed_time
      ReadoutPattern.group_time
    have hcast : ((p.ngroups - 1 : ℕ) : ℚ) + 1 = (p.ngroups : ℚ) := by
      have h1 : ((p.ngroups - 1 : ℕ) : ℚ) = (p.ngroups : ℚ) - 1 := by
        push_cast [hg]
        ring
      rw [h1]; ring
    rw [hcast]; ring
  · rfl

theorem readout_pattern_times_witness :
    (ReadoutPattern.mk 2 3 1 4 5).valid ∧
      (ReadoutPattern.mk 2 3 1 4 5).total_exposure_time =
        ((5 : ℚ)) * 4 * ((3 : ℚ) + 1) * 2 ∧
      (ReadoutPattern.mk 2 3 1 4 5).group_time = ((3 : ℚ) + 1) * 2 := by
  have hv : (ReadoutPattern.mk 2 3 1 4 5).valid := by decide
  have h := readout_pattern_times (ReadoutPattern.mk 2 3 1 4 5) hv
  exact ⟨hv, h.1, h.2⟩

/-- C9: constructing a ReadoutPattern fails with `InvalidPatternError`
exactly when some count among nframes, ngroups, nints is less than 1 or
frame_time ≤ 0 (nskip, a natural, may be 0); all other inputs succeed. -/
theorem mkReadoutPattern_error_iff (ft : ℚ) (nf ns ng ni : ℕ) :
    mkReadoutPattern ft nf ns ng ni = Except.error InvalidPatternError.invalidPattern ↔
      (nf < 1 ∨ ng < 1 ∨ ni < 1 ∨ ft ≤ 0) := by
  unfold mkReadoutPattern
  by_cases h : (ReadoutPattern.mk ft nf ns ng ni).valid
  · rw [if_pos h]
    obtain ⟨h1, h2, h3, h4⟩ := h
    have h1' : 0 < ft := h1
    have h2' : 1 ≤ nf := h2
    have h3' : 1 ≤ ng := h3
    have h4' : 1 ≤ ni := h4
    constructor
    · intro hcontra; cases hcontra
    · rintro (hc | hc | hc | hc)
      · omega
      · omega
      · omega
      · exact absurd h1' (not_lt.mpr hc)
  · rw [if_neg h]
    constructor
    · intro heq
      clear heq
      unfold ReadoutPattern.valid at h
      push_neg at h
      by_cases hft : 0 < ft
      · by_cases hnf : 1 ≤ nf
        · by_cases hng : 1 ≤ ng
          · have hni : ni < 1 := h hft hnf hng
            right; right; left; exact hni
          · right; left; omega
        · left; omega
      · right; right; right; exact le_of_not_lt hft
    · intro hor
      rfl

theorem mkReadoutPattern_error_iff_witness :
    mkReadoutPattern 1 0 0 2 1 = Except.error InvalidPatternError.invalidPattern ∧
      ¬ mkReadoutPattern 1 1 0 2 1 = Except.error InvalidPatternError.invalidPattern := by
  constructor
  · exact (mkReadoutPattern_error_iff 1 0 0 2 1).mpr (Or.inl (by decide))
  · intro hcontra
    rcases (mkReadoutPattern_error_iff 1 1 0 2 1).mp hcontra with h | h | h | h
    · exact absurd h (by decide)
    · exact absurd h (by decide)
    · exact absurd h (by decide)
    · exact absurd h (by norm_num)

/-- C4: running the Signal Accumulator over any resampled dark ramp with an
all-zero seed rate image returns a SignalRamp equal, at every index, to the
resampled dark ramp (the accumulator is the identity on the dark ramp when
the seed is zero). -/
theorem accumulate_zero_seed_identity (d : DarkRamp) (tgt : ReadoutPattern)
    (i g y x : ℕ) :
    (accumulateSignal (resampleDark d tgt) (fun _ _ => 0)).data i g y x =
      (resampleDark d tgt).data i g y x := by
  simp [accumulateSignal]

theorem group_time_pos (p : ReadoutPattern) (hv : p.valid) : 0 < p.group_time := by
  obtain ⟨hft, hnf, -, -⟩ := hv
  unfold ReadoutPattern.group_time
  have h1 : (1 : ℚ) ≤ (p.nframes : ℚ) := by exact_mod_cast hnf
  have h2 : (0 : ℚ) ≤ (p.nskip : ℚ) := Nat.cast_nonneg _
  have h3 : (0 : ℚ) < (p.nframes : ℚ) + (p.nskip : ℚ) := by linarith
  exact mul_pos h3 hft

theorem elapsed_time_strict_mono (p : ReadoutPattern) (hv : p.valid)
    {m k : ℕ} (h : m < k) : p.elapsed_time m < p.elapsed_time k := by
  unfold ReadoutPattern.elapsed_time
  have hgt := group_time_pos p hv
  have hmk : ((m : ℚ) + 1) < ((k : ℚ) + 1) := by
    have hc : (m : ℚ) < (k : ℚ) := by exact_mod_cast h
    linarith
  exact mul_lt_mul_of_pos_right hmk hgt

theorem chain'_range_of_adj (r : ℕ → ℕ → Prop) (n : ℕ)
    (h : ∀ m, m + 1 < n → r m (m + 1)) : List.Chain' r (List.range n) := by
  cases n with
  | zero => simp
  | succ k => exact (List.chain'_range_succ r k).mpr fun m hm => h m (by omega)

theorem seg_mono (x0 y0 s t t' : ℚ) (hs : 0 ≤ s) (h : t ≤ t') :
    y0 + (t - x0) * s ≤ y0 + (t' - x0) * s := by nlinarith

theorem seg_at_right (x0 y0 x1 y1 : ℚ) (h : x0 < x1) :
    y0 + (x1 - x0) * ((y1 - y0) / (x1 - x0)) = y1 := by
  have hne : x1 - x0 ≠ 0 := ne_of_gt (sub_pos.2 h)
  field_simp

theorem interpPts_head (x1 y1 : ℚ) (rest : List (ℚ × ℚ))
    (hx : ((x1, y1) :: rest).Chain' fun a b => a.1 < b.1) :
    interpPts ((x1, y1) :: rest) x1 = y1 := by
  match rest with
  | [] => rfl
  | [(x2, y2)] => simp [interpPts]
  | (x2, y2) :: q :: r =>
      have h12 : x1 < x2 := (List.chain'_cons.mp hx).1
      simp [interpPts, h12.le]

theorem interpPts_mono :
    ∀ pts : List (ℚ × ℚ),
      (pts.Chain' fun a b => a.1 < b.1) →
      (pts.Chain' fun a b => a.2 ≤ b.2) →
      ∀ t t' : ℚ, t ≤ t' → interpPts pts t ≤ interpPts pts t' := by
  intro pts
  induction pts with
  | nil => intro hx hy t t' htt; simp [interpPts]
  | cons p0 tail ih =>
    intro hx hy t t' htt
    obtain ⟨x0, y0⟩ := p0
    rcases tail with _ | ⟨⟨x1, y1⟩, tail2⟩
    · simp [interpPts]
    · have hx01 : x0 < x1 := (List.chain'_cons.mp hx).1
      have hy01 : y0 ≤ y1 := (List.chain'_cons.mp hy).1
      have hxtail := (List.chain'_cons.mp hx).2
      have hytail := (List.chain'_cons.mp hy).2
      have hslope : 0 ≤ (y1 - y0) / (x1 - x0) :=
        div_nonneg (sub_nonneg.2 hy01) (sub_pos.2 hx01).le
      rcases tail2 with _ | ⟨q, tail3⟩
      · simp only [interpPts]
        exact seg_mono x0 y0 _ t t' hslope htt
      · simp only [interpPts]
        by_cases h1 : t' ≤ x1
        · have h0 : t ≤ x1 := le_trans htt h1
          rw [if_pos h0, if_pos h1]
          exact seg_mono x0 y0 _ t t' hslope htt
        · rw [if_neg h1]
          by_cases h2 : t ≤ x1
          · rw [if_pos h2]
            have hstep : y0 + (t - x0) * ((y1 - y0) / (x1 - x0)) ≤ y1 := by
              have hseg := seg_mono x0 y0 ((y1 - y0) / (x1 - x0)) t x1 hslope h2
              rw [seg_at_right x0 y0 x1 y1 hx01] at hseg
              exact hseg
            have hhead : interpPts ((x1, y1) :: q :: tail3) x1 = y1 :=
              interpPts_head x1 y1 (q :: tail3) hxtail
            have htail : interpPts ((x1, y1) :: q :: tail3) x1 ≤
                interpPts ((x1, y1) :: q :: tail3) t' :=
              ih hxtail hytail x1 t' (le_of_lt (lt_of_not_le h1))
            calc y0 + (t - x0) * ((y1 - y0) / (x1 - x0)) ≤ y1 := hstep
              _ = interpPts ((x1, y1) :: q :: tail3) x1 := hhead.symm
              _ ≤ interpPts ((x1, y1) :: q :: tail3) t' := htail
          · rw [if_neg h2]
            exact ih hxtail hytail t t' htt

/-- C3: for every source DarkRamp (with valid originating pattern) that is
pixel-wise monotonically non-decreasing along the group axis within each
integration, the resampled ramp onto any valid target ReadoutPattern is
also pixel-wise monotonically non-decreasing along the group axis within
each integration. -/
theorem resample_dark_monotone (d : DarkRamp) (tgt : ReadoutPattern)
    (hs : d.pattern.valid) (ht : tgt.valid)
    (hmono : ∀ i y x k, k + 1 < d.ngroups →
      d.data i k y x ≤ d.data i (k + 1) y x)
    (i g y x : ℕ) (_hgroups : g + 1 < tgt.ngroups) :
    (resampleDark d tgt).data i g y x ≤ (resampleDark d tgt).data i (g + 1) y x := by
  have hchainx : (sourcePoints d (i % d.nints) y x).Chain' fun a b => a.1 < b.1 := by
    unfold sourcePoints
    rw [List.chain'_map]
    exact chain'_range_of_adj _ _ fun m hm =>
      elapsed_time_strict_mono d.pattern hs (Nat.lt_succ_self m)
  have hchainy : (sourcePoints d (i % d.nints) y x).Chain' fun a b => a.2 ≤ b.2 := by
    unfold sourcePoints
    rw [List.chain'_map]
    exact chain'_range_of_adj _ _ fun m hm => hmono (i % d.nints) y x m hm
  have hle : tgt.elapsed_time g ≤ tgt.elapsed_time (g + 1) :=
    (elapsed_time_strict_mono tgt ht (Nat.lt_succ_self g)).le
  exact interpPts_mono _ hchainx hchainy _ _ hle

theorem resample_dark_monotone_witness :
    (resampleDark ⟨1, 2, 1, 1, ⟨1, 1, 0, 2, 1⟩, fun _ k _ _ => (k : ℚ)⟩
        ⟨1, 1, 0, 3, 1⟩).data 0 0 0 0 ≤
      (resampleDark ⟨1, 2, 1, 1, ⟨1, 1, 0, 2, 1⟩, fun _ k _ _ => (k : ℚ)⟩
        ⟨1, 1, 0, 3, 1⟩).data 0 1 0 0 := by
  exact resample_dark_monotone _ _ (by decide) (by decide)
    (fun i y x k hk => by push_cast; linarith) 0 0 0 0 (by decide)

theorem interpPts_cons_of_gt (p0 p1 : ℚ × ℚ) (rest : List (ℚ × ℚ)) (t : ℚ)
    (h : p1.1 < t) (hne : rest ≠ []) :
    interpPts (p0 :: p1 :: rest) t = interpPts (p1 :: rest) t := by
  rcases rest with _ | ⟨q, r⟩
  · exact absurd rfl hne
  · obtain ⟨x0, y0⟩ := p0
    obtain ⟨x1, y1⟩ := p1
    simp only [interpPts]
    rw [if_neg (not_le.mpr h)]

theorem interpPts_beyond :
    ∀ (l : List (ℚ × ℚ)) (a b : ℚ × ℚ) (t : ℚ),
      a.1 < b.1 → (∀ p ∈ l ++ [a], p.1 < t) →
      interpPts (l ++ [a, b]) t = b.2 + (t - b.1) * ((b.2 - a.2) / (b.1 - a.1)) := by
  intro l
  induction l with
  | nil =>
    intro a b t hab hall
    obtain ⟨xa, ya⟩ := a
    obtain ⟨xb, yb⟩ := b
    simp only [List.nil_append, interpPts]
    have h1 := seg_at_right xa ya xb yb hab
    linear_combination h1
  | cons p l' ih =>
    intro a b t hab hall
    simp only [List.cons_append] at hall ⊢
    rcases l' with _ | ⟨p1, l''⟩
    · have hta : a.1 < t := hall a (by simp)
      rw [List.nil_append]
      have hstep := interpPts_cons_of_gt p a [b] t hta (by simp)
      rw [hstep]
      exact ih a b t hab fun q hq => hall q (by simp at hq; simp [hq])
    · have ht1 : p1.1 < t := hall p1 (by simp)
      simp only [List.cons_append]
      have hstep := interpPts_cons_of_gt p p1 (l'' ++ [a, b]) t ht1 (by simp)
      rw [hstep]
      have hih := ih a b t hab fun q hq => hall q (by
        simp only [List.cons_append, List.mem_cons] at hq ⊢
        tauto)
      simpa only [List.cons_append] using hih

/-- C8: if a target group's requested elapsed time exceeds the source dark
ramp's last sampled elapsed time, the Dark Ramp Resampler returns (rather
than erroring) the accumulated signal extrapolated linearly with the mean
slope of the final source segment. -/
theorem resample_dark_extrapolates (d : DarkRamp) (tgt : ReadoutPattern)
    (hs : d.pattern.valid) (m : ℕ) (hng : d.ngroups = m + 2) (i g y x : ℕ)
    (hbeyond : d.pattern.elapsed_time (m + 1) < tgt.elapsed_time g) :
    (resampleDark d tgt).data i g y x =
      d.data (i % d.nints) (m + 1) y x +
        (tgt.elapsed_time g - d.pattern.elapsed_time (m + 1)) *
          ((d.data (i % d.nints) (m + 1) y x - d.data (i % d.nints) m y x) /
            (d.pattern.elapsed_time (m + 1) - d.pattern.elapsed_time m)) := by
  show interpPts (sourcePoints d (i % d.nints) y x) (tgt.elapsed_time g) = _
  unfold sourcePoints
  rw [hng]
  rw [show m + 2 = (m + 1) + 1 from rfl, List.range_succ, List.range_succ]
  rw [List.map_append, List.map_append]
  rw [List.append_assoc]
  simp only [List.map_singleton, List.singleton_append]
  have hab : (d.pattern.elapsed_time m, d.data (i % d.nints) m y x).1 <
      (d.pattern.elapsed_time (m + 1), d.data (i % d.nints) (m + 1) y x).1 :=
    elapsed_time_strict_mono d.pattern hs (Nat.lt_succ_self m)
  have hall : ∀ p ∈ (List.range m).map
      (fun k => (d.pattern.elapsed_time k, d.data (i % d.nints) k y x)) ++
        [(d.pattern.elapsed_time m, d.data (i % d.nints) m y x)],
      p.1 < tgt.elapsed_time g := by
    intro p hp
    rcases List.mem_append.mp hp with hp1 | hp2
    · obtain ⟨k, hk, rfl⟩ := List.mem_map.mp hp1
      have hkm : k < m + 1 := by
        have := List.mem_range.mp hk
        omega
      exact lt_trans (elapsed_time_strict_mono d.pattern hs hkm) hbeyond
    · have hpe : p = (d.pattern.elapsed_time m, d.data (i % d.nints) m y x) := by
        simpa using hp2
      subst hpe
      exact lt_trans (elapsed_time_strict_mono d.pattern hs (Nat.lt_succ_self m)) hbeyond
  exact interpPts_beyond _ _ _ _ hab hall

theorem resample_dark_extrapolates_witness :
    (resampleDark ⟨1, 2, 1, 1, ⟨1, 1, 0, 2, 1⟩, fun _ k _ _ => (k : ℚ)⟩
        ⟨1, 1, 0, 5, 1⟩).data 0 4 0 0 = 4 := by
  have hbeyond : (ReadoutPattern.mk 1 1 0 2 1).elapsed_time (0 + 1) <
      (ReadoutPattern.mk 1 1 0 5 1).elapsed_time 4 := by
    norm_num [ReadoutPattern.elapsed_time, ReadoutPattern.group_time]
  have h := resample_dark_extrapolates
    ⟨1, 2, 1, 1, ⟨1, 1, 0, 2, 1⟩, fun _ k _ _ => (k : ℚ)⟩
    ⟨1, 1, 0, 5, 1⟩ (by decide) 0 rfl 0 4 0 0 hbeyond
  rw [h]
  norm_num [ReadoutPattern.elapsed_time, ReadoutPattern.group_time]

theorem satFlag_of_exceed (ideal : ℕ → ℚ) (thresh : ℚ) (g : ℕ)
    (h : thresh < ideal g) : satFlag ideal thresh g = true := by
  cases g with
  | zero => simp [satFlag, h]
  | succ n => simp [satFlag, h]

theorem satFlag_sticky (ideal : ℕ → ℚ) (thresh : ℚ) (g g2 : ℕ) (hle : g ≤ g2)
    (h : satFlag ideal thresh g = true) : satFlag ideal thresh g2 = true := by
  induction g2, hle using Nat.le_induction with
  | base => exact h
  | succ n hn ih => simp [satFlag, ih]

/-- C5: if a pixel's ideal accumulated charge exceeds the saturation
threshold in group `g`, then in group `g` and every subsequent group of the
same integration the data-quality array flags the pixel as saturated and
the output value is clipped to the threshold exactly. -/
theorem saturation_sticky_clip (r : SignalRamp) (thresh : ℚ) (i g y x : ℕ)
    (hexceed : thresh < r.data i g y x) :
    ∀ g2, g ≤ g2 →
      (applySaturation r thresh).2 i g2 y x = true ∧
        (applySaturation r thresh).1.data i g2 y x = thresh := by
  intro g2 hle
  have hflag : satFlag (fun k => r.data i k y x) thresh g2 = true :=
    satFlag_sticky _ thresh g g2 hle
      (satFlag_of_exceed (fun k => r.data i k y x) thresh g hexceed)
  refine ⟨hflag, ?_⟩
  show satValue (fun k => r.data i k y x) thresh g2 = thresh
  unfold satValue
  rw [hflag]
  rfl

theorem saturation_sticky_clip_witness :
    ((3 : ℚ) < (SignalRamp.mk 1 3 1 1 fun _ g _ _ => (2 : ℚ) * ((g : ℚ) + 1)).data 0 1 0 0) ∧
      (applySaturation (SignalRamp.mk 1 3 1 1 fun _ g _ _ => (2 : ℚ) * ((g : ℚ) + 1)) 3).2 0 2 0 0 = true ∧
      (applySaturation (SignalRamp.mk 1 3 1 1 fun _ g _ _ => (2 : ℚ) * ((g : ℚ) + 1)) 3).1.data 0 2 0 0 = 3 := by
  have hexceed : (3 : ℚ) <
      (SignalRamp.mk 1 3 1 1 fun _ g _ _ => (2 : ℚ) * ((g : ℚ) + 1)).data 0 1 0 0 := by
    norm_num
  have h := saturation_sticky_clip
    (SignalRamp.mk 1 3 1 1 fun _ g _ _ => (2 : ℚ) * ((g : ℚ) + 1)) 3 0 1 0 0 hexceed
    2 (by omega)
  exact ⟨hexceed, h.1, h.2⟩

/-- C7: two invocations of `synthesize_exposure` with identical seed image,
dark ramp, readout pattern, detector-effects configuration and identical
random seed produce identical ExposureCube outputs: the pipeline threads
all randomness from the single supplied seed, so its output is a function
of its arguments alone. -/
theorem synthesize_exposure_deterministic
    (s1 s2 : ℕ → ℕ → ℚ) (d1 d2 : DarkRamp) (p1 p2 : ReadoutPattern)
    (c1 c2 : DetectorEffectsConfig) (r1 r2 : ℕ)
    (hs : s1 = s2) (hd : d1 = d2) (hp : p1 = p2) (hc : c1 = c2) (hr : r1 = r2) :
    synthesize_exposure s1 d1 p1 c1 r1 = synthesize_exposure s2 d2 p2 c2 r2 := by
  subst hs; subst hd; subst hp; subst hc; subst hr; rfl

theorem synthesize_exposure_deterministic_witness :
    synthesize_exposure (fun _ _ => 1)
        ⟨1, 2, 1, 1, ⟨1, 1, 0, 2, 1⟩, fun _ _ _ _ => 0⟩ ⟨1, 1, 0, 2, 1⟩
        ⟨true, true, 3, true, [0, 1], true, 100, true, 2, true, fun _ _ => 1⟩ 42 =
      synthesize_exposure (fun _ _ => 1)
        ⟨1, 2, 1, 1, ⟨1, 1, 0, 2, 1⟩, fun _ _ _ _ => 0⟩ ⟨1, 1, 0, 2, 1⟩
        ⟨true, true, 3, true, [0, 1], true, 100, true, 2, true, fun _ _ => 1⟩ 42 :=
  synthesize_exposure_deterministic _ _ _ _ _ _ _ _ _ _ rfl rfl rfl rfl rfl

/-- C2: the end-to-end scenario — a 2×2 seed image with rates
[[1,0],[0,1]] e/s, an all-zero dark ramp, ReadoutPattern
{frame_time=1, nframes=1, nskip=0, ngroups=2, nints=1}, and every noise
stage disabled, synthesizes the SignalRamp [[[1,0],[0,1]],[[2,0],[0,2]]]
(group 1 then group 2) exactly. -/
theorem end_to_end_scenario :
    ((synthesize_exposure (fun y x => if y = x then 1 else 0)
        ⟨1, 2, 2, 2, ⟨1, 1, 0, 2, 1⟩, fun _ _ _ _ => 0⟩ ⟨1, 1, 0, 2, 1⟩
        ⟨false, false, 0, false, [], false, 0, false, 0, false, fun _ _ => 0⟩
        0).data 0 0 0 0 = 1 ∧
      (synthesize_exposure (fun y x => if y = x then 1 else 0)
        ⟨1, 2, 2, 2, ⟨1, 1, 0, 2, 1⟩, fun _ _ _ _ => 0⟩ ⟨1, 1, 0, 2, 1⟩
        ⟨false, false, 0, false, [], false, 0, false, 0, false, fun _ _ => 0⟩
        0).data 0 0 0 1 = 0 ∧
      (synthesize_exposure (fun y x => if y = x then 1 else 0)
        ⟨1, 2, 2, 2, ⟨1, 1, 0, 2, 1⟩, fun _ _ _ _ => 0⟩ ⟨1, 1, 0, 2, 1⟩
        ⟨false, false, 0, false, [], false, 0, false, 0, false, fun _ _ => 0⟩
        0).data 0 0 1 0 = 0 ∧
      (synthesize_exposure (fun y x => if y = x then 1 else 0)
        ⟨1, 2, 2, 2, ⟨1, 1, 0, 2, 1⟩, fun _ _ _ _ => 0⟩ ⟨1, 1, 0, 2, 1⟩
        ⟨false, false, 0, false, [], false, 0, false, 0, false, fun _ _ => 0⟩
        0).data 0 0 1 1 = 1) ∧
      (synthesize_exposure (fun y x => if y = x then 1 else 0)
        ⟨1, 2, 2, 2, ⟨1, 1, 0, 2, 1⟩, fun _ _ _ _ => 0⟩ ⟨1, 1, 0, 2, 1⟩
        ⟨false, false, 0, false, [], false, 0, false, 0, false, fun _ _ => 0⟩
        0).data 0 1 0 0 = 2 ∧
      (synthesize_exposure (fun y x => if y = x then 1 else 0)
        ⟨1, 2, 2, 2, ⟨1, 1, 0, 2, 1⟩, fun _ _ _ _ => 0⟩ ⟨1, 1, 0, 2, 1⟩
        ⟨false, false, 0, false, [], false, 0, false, 0, false, fun _ _ => 0⟩
        0).data 0 1 0 1 = 0 ∧
      (synthesize_exposure (fun y x => if y = x then 1 else 0)
        ⟨1, 2, 2, 2, ⟨1, 1, 0, 2, 1⟩, fun _ _ _ _ => 0⟩ ⟨1, 1, 0, 2, 1⟩
        ⟨false, false, 0, false, [], false, 0, false, 0, false, fun _ _ => 0⟩
        0).data 0 1 1 0 = 0 ∧
      (synthesize_exposure (fun y x => if y = x then 1 else 0)
        ⟨1, 2, 2, 2, ⟨1, 1, 0, 2, 1⟩, fun _ _ _ _ => 0⟩ ⟨1, 1, 0, 2, 1⟩
        ⟨false, false, 0, false, [], false, 0, false, 0, false, fun _ _ => 0⟩
        0).data 0 1 1 1 = 2 := by
  norm_num [synthesize_exposure, assembleExposure, accumulateSignal, resampleDark,
    sourcePoints, interpPts, ReadoutPattern.elapsed_time, ReadoutPattern.group_time,
    List.range_succ]

theorem bw_sum (c : ℚ) (n : ℕ) (h0 : 0 ≤ ⌊c⌋) (h1 : ⌊c⌋ + 1 < (n : ℤ)) :
    ∑ j ∈ Finset.range n, bw c j = 1 := by
  have ha : ((⌊c⌋.toNat : ℤ)) = ⌊c⌋ := Int.toNat_of_nonneg h0
  have hsplit : ∀ j : ℕ, bw c j =
      (if j = ⌊c⌋.toNat then 1 - (c - ⌊c⌋) else 0) +
        (if j = ⌊c⌋.toNat + 1 then c - ⌊c⌋ else 0) := by
    intro j
    unfold bw
    by_cases hj : (j : ℤ) = ⌊c⌋
    · have hj1 : j = ⌊c⌋.toNat := by omega
      have hj2 : ¬j = ⌊c⌋.toNat + 1 := by omega
      rw [if_pos hj, if_pos hj1, if_neg hj2, add_zero]
    · rw [if_neg hj]
      by_cases hk : (j : ℤ) = ⌊c⌋ + 1
      · have hk1 : j = ⌊c⌋.toNat + 1 := by omega
        have hk2 : ¬j = ⌊c⌋.toNat := by omega
        rw [if_pos hk, if_pos hk1, if_neg hk2, zero_add]
      · have hk1 : ¬j = ⌊c⌋.toNat := by omega
        have hk2 : ¬j = ⌊c⌋.toNat + 1 := by omega
        rw [if_neg hk, if_neg hk1, if_neg hk2, add_zero]
  calc ∑ j ∈ Finset.range n, bw c j
      = ∑ j ∈ Finset.range n,
          ((if j = ⌊c⌋.toNat then 1 - (c - ⌊c⌋) else 0) +
            (if j = ⌊c⌋.toNat + 1 then c - ⌊c⌋ else 0)) :=
        Finset.sum_congr rfl fun j _ => hsplit j
    _ = 1 := by
        rw [Finset.sum_add_distrib]
        rw [Finset.sum_ite_eq' (Finset.range n) ⌊c⌋.toNat fun _ => 1 - (c - ⌊c⌋)]
        rw [Finset.sum_ite_eq' (Finset.range n) (⌊c⌋.toNat + 1) fun _ => c - ⌊c⌋]
        have hm1 : ⌊c⌋.toNat ∈ Finset.range n := Finset.mem_range.mpr (by omega)
        have hm2 : ⌊c⌋.toNat + 1 ∈ Finset.range n := Finset.mem_range.mpr (by omega)
        rw [if_pos hm1, if_pos hm2]
        ring

theorem sum_list_swap {β : Type} (s : Finset ℕ) (l : List β) (F : β → ℕ → ℚ) :
    ∑ a ∈ s, (l.map fun b => F b a).sum = (l.map fun b => ∑ a ∈ s, F b a).sum := by
  induction l with
  | nil => simp
  | cons b l ih => simp [Finset.sum_add_distrib, ih]

theorem sum4_swap (s t u v : Finset ℕ) (T : ℕ → ℕ → ℕ → ℕ → ℚ) :
    ∑ y ∈ s, ∑ x ∈ t, ∑ py ∈ u, ∑ px ∈ v, T y x py px
      = ∑ py ∈ u, ∑ px ∈ v, ∑ y ∈ s, ∑ x ∈ t, T y x py px := by
  calc ∑ y ∈ s, ∑ x ∈ t, ∑ py ∈ u, ∑ px ∈ v, T y x py px
      = ∑ y ∈ s, ∑ py ∈ u, ∑ x ∈ t, ∑ px ∈ v, T y x py px :=
        Finset.sum_congr rfl fun y _ => Finset.sum_comm
    _ = ∑ py ∈ u, ∑ y ∈ s, ∑ x ∈ t, ∑ px ∈ v, T y x py px := Finset.sum_comm
    _ = ∑ py ∈ u, ∑ y ∈ s, ∑ px ∈ v, ∑ x ∈ t, T y x py px :=
        Finset.sum_congr rfl fun py _ =>
          Finset.sum_congr rfl fun y _ => Finset.sum_comm
    _ = ∑ py ∈ u, ∑ px ∈ v, ∑ y ∈ s, ∑ x ∈ t, T y x py px :=
        Finset.sum_congr rfl fun py _ => Finset.sum_comm

theorem depositBin_grid_sum (seed : WaveSeedImage) (b : WaveBin) (tr : SpectralTrace)
    (hfoot : tr.covers b.wavelength → ∀ py px, py < seed.ny → px < seed.nx →
      b.rate py px ≠ 0 →
      (0 ≤ ⌊(py : ℚ) + tr.dispy b.wavelength⌋ ∧
        ⌊(py : ℚ) + tr.dispy b.wavelength⌋ + 1 < (seed.ny : ℤ)) ∧
      (0 ≤ ⌊(px : ℚ) + tr.dispx b.wavelength⌋ ∧
        ⌊(px : ℚ) + tr.dispx b.wavelength⌋ + 1 < (seed.nx : ℤ))) :
    ∑ y ∈ Finset.range seed.ny, ∑ x ∈ Finset.range seed.nx,
      depositBin seed.ny seed.nx b tr y x =
      if tr.covers b.wavelength then binFlux seed b * tr.throughput b.wavelength
      else 0 := by
  by_cases hc : tr.covers b.wavelength
  · simp only [depositBin, if_pos hc]
    rw [sum4_swap]
    have hinner : ∀ py ∈ Finset.range seed.ny, ∀ px ∈ Finset.range seed.nx,
        ∑ y ∈ Finset.range seed.ny, ∑ x ∈ Finset.range seed.nx,
          b.rate py px * tr.throughput b.wavelength *
            bw ((py : ℚ) + tr.dispy b.wavelength) y *
            bw ((px : ℚ) + tr.dispx b.wavelength) x =
          b.rate py px * tr.throughput b.wavelength := by
      intro py hpy px hpx
      by_cases hr : b.rate py px = 0
      · simp [hr]
      · obtain ⟨⟨hy0, hy1⟩, ⟨hx0, hx1⟩⟩ :=
          hfoot hc py px (Finset.mem_range.mp hpy) (Finset.mem_range.mp hpx) hr
        calc ∑ y ∈ Finset.range seed.ny, ∑ x ∈ Finset.range seed.nx,
              b.rate py px * tr.throughput b.wavelength *
                bw ((py : ℚ) + tr.dispy b.wavelength) y *
                bw ((px : ℚ) + tr.dispx b.wavelength) x
            = (∑ y ∈ Finset.range seed.ny,
                b.rate py px * tr.throughput b.wavelength *
                  bw ((py : ℚ) + tr.dispy b.wavelength) y) *
                ∑ x ∈ Finset.range seed.nx,
                  bw ((px : ℚ) + tr.dispx b.wavelength) x :=
              (Finset.sum_mul_sum _ _ _ _).symm
          _ = b.rate py px * tr.throughput b.wavelength := by
              rw [bw_sum _ _ hx0 hx1, mul_one]
              rw [← Finset.mul_sum, bw_sum _ _ hy0 hy1, mul_one]
    calc ∑ py ∈ Finset.range seed.ny, ∑ px ∈ Finset.range seed.nx,
          ∑ y ∈ Finset.range seed.ny, ∑ x ∈ Finset.range seed.nx,
            b.rate py px * tr.throughput b.wavelength *
              bw ((py : ℚ) + tr.dispy b.wavelength) y *
              bw ((px : ℚ) + tr.dispx b.wavelength) x
        = ∑ py ∈ Finset.range seed.ny, ∑ px ∈ Finset.range seed.nx,
            b.rate py px * tr.throughput b.wavelength :=
          Finset.sum_congr rfl fun py hpy =>
            Finset.sum_congr rfl fun px hpx => hinner py hpy px hpx
      _ = binFlux seed b * tr.throughput b.wavelength := by
          rw [binFlux, Finset.sum_mul]
          exact Finset.sum_congr rfl fun py _ => (Finset.sum_mul _ _ _).symm
  · simp [depositBin, hc]

/-- C6 (amended): for every wavelength-resolved SeedImage each of whose
bins lies in the traces' sampled wavelength domain with relative
throughputs summing to one across the covering orders, and whose displaced
flux footprint lies fully inside the detector grid, the Dispersion
Engine's output image sums to the seed's total flux F exactly (in
particular within any relative tolerance), bins and orders being deposited
bilinearly and additively. The normalization premise is necessary: without
it a covering trace of throughput 1/2 halves the flux. -/
theorem dispersion_flux_conserved (seed : WaveSeedImage) (traces : List SpectralTrace)
    (hnorm : ∀ b ∈ seed.bins,
      (traces.map fun tr =>
        if tr.covers b.wavelength then tr.throughput b.wavelength else 0).sum = 1)
    (hfoot : ∀ b ∈ seed.bins, ∀ tr ∈ traces, tr.covers b.wavelength →
      ∀ py px, py < seed.ny → px < seed.nx → b.rate py px ≠ 0 →
      (0 ≤ ⌊(py : ℚ) + tr.dispy b.wavelength⌋ ∧
        ⌊(py : ℚ) + tr.dispy b.wavelength⌋ + 1 < (seed.ny : ℤ)) ∧
      (0 ≤ ⌊(px : ℚ) + tr.dispx b.wavelength⌋ ∧
        ⌊(px : ℚ) + tr.dispx b.wavelength⌋ + 1 < (seed.nx : ℤ))) :
    ∑ y ∈ Finset.range seed.ny, ∑ x ∈ Finset.range seed.nx,
      disperse seed traces y x = totalFlux seed := by
  unfold disperse
  calc ∑ y ∈ Finset.range seed.ny, ∑ x ∈ Finset.range seed.nx,
        (seed.bins.map fun b =>
          (traces.map fun tr => depositBin seed.ny seed.nx b tr y x).sum).sum
      = ∑ y ∈ Finset.range seed.ny,
          (seed.bins.map fun b => ∑ x ∈ Finset.range seed.nx,
            (traces.map fun tr => depositBin seed.ny seed.nx b tr y x).sum).sum :=
        Finset.sum_congr rfl fun y _ => sum_list_swap _ _ _
    _ = (seed.bins.map fun b => ∑ y ∈ Finset.range seed.ny,
          ∑ x ∈ Finset.range seed.nx,
            (traces.map fun tr => depositBin seed.ny seed.nx b tr y x).sum).sum :=
        sum_list_swap _ _ _
    _ = (seed.bins.map fun b => binFlux seed b).sum := by
        apply congrArg List.sum
        apply List.map_congr_left
        intro b hb
        calc ∑ y ∈ Finset.range seed.ny, ∑ x ∈ Finset.range seed.nx,
              (traces.map fun tr => depositBin seed.ny seed.nx b tr y x).sum
            = ∑ y ∈ Finset.range seed.ny,
                (traces.map fun tr => ∑ x ∈ Finset.range seed.nx,
                  depositBin seed.ny seed.nx b tr y x).sum :=
              Finset.sum_congr rfl fun y _ => sum_list_swap _ _ _
          _ = (traces.map fun tr => ∑ y ∈ Finset.range seed.ny,
                ∑ x ∈ Finset.range seed.nx,
                  depositBin seed.ny seed.nx b tr y x).sum :=
              sum_list_swap _ _ _
          _ = (traces.map fun tr =>
                if tr.covers b.wavelength then
                  binFlux seed b * tr.throughput b.wavelength
                else 0).sum := by
              apply congrArg List.sum
              apply List.map_congr_left
              intro tr htr
              exact depositBin_grid_sum seed b tr (hfoot b hb tr htr)
          _ = (traces.map fun tr =>
                binFlux seed b *
                  (if tr.covers b.wavelength then tr.throughput b.wavelength
                    else 0)).sum := by
              apply congrArg List.sum
              apply List.map_congr_left
              intro tr htr
              rw [mul_ite, mul_zero]
          _ = binFlux seed b := by
              rw [List.sum_map_mul_left, hnorm b hb, mul_one]
    _ = totalFlux seed := rfl

theorem dispersion_flux_conserved_witness :
    ∑ y ∈ Finset.range dispSeedW.ny, ∑ x ∈ Finset.range dispSeedW.nx,
      disperse dispSeedW [dispTraceW] y x = totalFlux dispSeedW := by
  apply dispersion_flux_conserved
  · intro b hb
    simp only [dispSeedW, List.mem_singleton] at hb
    subst hb
    have hcov : dispTraceW.covers (1 : ℚ) := by
      unfold dispTraceW SpectralTrace.covers
      norm_num
    show (if dispTraceW.covers 1 then dispTraceW.throughput 1 else 0) + 0 = 1
    rw [if_pos hcov, add_zero]
    rfl
  · intro b hb tr htr hcov py px hpy hpx hrate
    simp only [dispSeedW, List.mem_singleton] at hb
    simp only [List.mem_singleton] at htr
    subst hb
    subst htr
    by_cases hpp : py = 1 ∧ px = 1
    · obtain ⟨h1, h2⟩ := hpp
      subst h1
      subst h2
      refine ⟨⟨?_, ?_⟩, ?_, ?_⟩ <;> simp only [dispTraceW, dispSeedW]
      · rw [Int.le_floor]
        push_cast
        norm_num
      · have hlt : ⌊(1 : ℚ) + 1 / 2⌋ < 2 := by
          rw [Int.floor_lt]
          norm_num
        have hny : (dispSeedW.ny : ℤ) = 3 := rfl
        have hnx : (dispSeedW.nx : ℤ) = 3 := rfl
        push_cast
        omega
      · rw [Int.le_floor]
        push_cast
        norm_num
      · have hlt : ⌊(1 : ℚ) + 1 / 2⌋ < 2 := by
          rw [Int.floor_lt]
          norm_num
        have hny : (dispSeedW.ny : ℤ) = 3 := rfl
        have hnx : (dispSeedW.nx : ℤ) = 3 := rfl
        push_cast
        omega
    · exfalso
      apply hrate
      show (if py = 1 ∧ px = 1 then (1 : ℚ) else 0) = 0
      rw [if_neg hpp]

/-- C6: counterexample to the claim as stated — a single trace that covers
the scene's wavelength and keeps the displaced footprint fully inside the
3×3 grid, but has relative throughput 1/2: the seed's total flux is 1,
while the dispersed image sums to 1/2, so the output does not sum to F
(nor lie within a 1e-6 relative tolerance of it). -/
theorem dispersion_flux_not_conserved_counterexample :
    totalFlux dispSeedW = 1 ∧
      ∑ y ∈ Finset.range dispSeedW.ny, ∑ x ∈ Finset.range dispSeedW.nx,
        disperse dispSeedW [dispTraceHalf] y x = 1 / 2 := by
  have hbf : binFlux dispSeedW
      (WaveBin.mk 1 fun py px => if py = 1 ∧ px = 1 then (1 : ℚ) else 0) = 1 := by
    norm_num [binFlux, dispSeedW, Finset.sum_range_succ]
  have htf : totalFlux dispSeedW = 1 := by
    show (dispSeedW.bins.map fun b => binFlux dispSeedW b).sum = 1
    rw [show dispSeedW.bins =
      [WaveBin.mk 1 fun py px => if py = 1 ∧ px = 1 then (1 : ℚ) else 0] from rfl]
    rw [List.map_cons, List.map_nil, List.sum_cons, List.sum_nil, add_zero, hbf]
  refine ⟨htf, ?_⟩
  have hfoot : dispTraceHalf.covers
      (WaveBin.mk 1 fun py px => if py = 1 ∧ px = 1 then (1 : ℚ) else 0).wavelength →
      ∀ py px, py < dispSeedW.ny → px < dispSeedW.nx →
      (WaveBin.mk 1 fun py px => if py = 1 ∧ px = 1 then (1 : ℚ) else 0).rate py px ≠ 0 →
      (0 ≤ ⌊(py : ℚ) + dispTraceHalf.dispy
          (WaveBin.mk 1 fun py px => if py = 1 ∧ px = 1 then (1 : ℚ) else 0).wavelength⌋ ∧
        ⌊(py : ℚ) + dispTraceHalf.dispy
          (WaveBin.mk 1 fun py px => if py = 1 ∧ px = 1 then (1 : ℚ) else 0).wavelength⌋ + 1 <
          (dispSeedW.ny : ℤ)) ∧
      (0 ≤ ⌊(px : ℚ) + dispTraceHalf.dispx
          (WaveBin.mk 1 fun py px => if py = 1 ∧ px = 1 then (1 : ℚ) else 0).wavelength⌋ ∧
        ⌊(px : ℚ) + dispTraceHalf.dispx
          (WaveBin.mk 1 fun py px => if py = 1 ∧ px = 1 then (1 : ℚ) else 0).wavelength⌋ + 1 <
          (dispSeedW.nx : ℤ)) := by
    intro hcov py px hpy hpx hrate
    by_cases hpp : py = 1 ∧ px = 1
    · obtain ⟨h1, h2⟩ := hpp
      subst h1
      subst h2
      refine ⟨⟨?_, ?_⟩, ?_, ?_⟩ <;> simp only [dispTraceHalf, dispSeedW]
      · rw [Int.le_floor]
        push_cast
        norm_num
      · have hlt : ⌊(1 : ℚ) + 1 / 2⌋ < 2 := by
          rw [Int.floor_lt]
          norm_num
        have hny : (dispSeedW.ny : ℤ) = 3 := rfl
        have hnx : (dispSeedW.nx : ℤ) = 3 := rfl
        push_cast
        omega
      · rw [Int.le_floor]
        push_cast
        norm_num
      · have hlt : ⌊(1 : ℚ) + 1 / 2⌋ < 2 := by
          rw [Int.floor_lt]
          norm_num
        have hny : (dispSeedW.ny : ℤ) = 3 := rfl
        have hnx : (dispSeedW.nx : ℤ) = 3 := rfl
        push_cast
        omega
    · exfalso
      apply hrate
      show (if py = 1 ∧ px = 1 then (1 : ℚ) else 0) = 0
      rw [if_neg hpp]
  have hgrid := depositBin_grid_sum dispSeedW
    (WaveBin.mk 1 fun py px => if py = 1 ∧ px = 1 then (1 : ℚ) else 0) dispTraceHalf hfoot
  have hcov : dispTraceHalf.covers
      (WaveBin.mk 1 fun py px => if py = 1 ∧ px = 1 then (1 : ℚ) else 0).wavelength := by
    show dispTraceHalf.covers 1
    unfold dispTraceHalf SpectralTrace.covers
    norm_num
  rw [if_pos hcov] at hgrid
  have hpt : ∀ y x, disperse dispSeedW [dispTraceHalf] y x =
      depositBin dispSeedW.ny dispSeedW.nx
        (WaveBin.mk 1 fun py px => if py = 1 ∧ px = 1 then (1 : ℚ) else 0)
        dispTraceHalf y x := by
    intro y x
    show ((dispSeedW.bins.map fun b =>
      ([dispTraceHalf].map fun tr => depositBin dispSeedW.ny dispSeedW.nx b tr y x).sum)).sum = _
    rw [show dispSeedW.bins =
      [WaveBin.mk 1 fun py px => if py = 1 ∧ px = 1 then (1 : ℚ) else 0] from rfl]
    simp
  calc ∑ y ∈ Finset.range dispSeedW.ny, ∑ x ∈ Finset.range dispSeedW.nx,
        disperse dispSeedW [dispTraceHalf] y x
      = ∑ y ∈ Finset.range dispSeedW.ny, ∑ x ∈ Finset.range dispSeedW.nx,
          depositBin dispSeedW.ny dispSeedW.nx
            (WaveBin.mk 1 fun py px => if py = 1 ∧ px = 1 then (1 : ℚ) else 0)
            dispTraceHalf y x :=
        Finset.sum_congr rfl fun y _ => Finset.sum_congr rfl fun x _ => hpt y x
    _ = binFlux dispSeedW
          (WaveBin.mk 1 fun py px => if py = 1 ∧ px = 1 then (1 : ℚ) else 0) *
          dispTraceHalf.throughput
            (WaveBin.mk 1 fun py px => if py = 1 ∧ px = 1 then (1 : ℚ) else 0).wavelength :=
        hgrid
    _ = 1 / 2 := by
        rw [hbf, one_mul]
        rfl

/-- C10: executing src/setup.py raises `NameError` on the undefined name
`PyTest` while evaluating the `cmdclass` argument, in every execution
environment whose builtin namespace does not bind `PyTest` (no Python
builtin namespace does), so the `setup()` call never completes and the
installation entry point never succeeds. -/
theorem setup_py_raises_nameerror (builtins : List String)
    (h : "PyTest" ∉ builtins) :
    runSetupPy builtins = Except.error (PyError.nameError ("PyTest")) := by
  unfold runSetupPy setupCallArgNames
  have h1 : "find_packages" ∈ builtins ++ setupPyModuleBindings := by
    apply List.mem_append_right
    unfold setupPyModuleBindings
    simp
  have h2 : "PyTest" ∉ builtins ++ setupPyModuleBindings := by
    intro hmem
    rcases List.mem_append.mp hmem with hb | hm
    · exact h hb
    · unfold setupPyModuleBindings at hm
      simp at hm
  unfold evalNames
  rw [if_pos h1]
  unfold evalNames
  rw [if_neg h2]

theorem setup_py_raises_nameerror_witness :
    "PyTest" ∉ (["print", "len", "open", "object"] : List String) ∧
      runSetupPy ["print", "len", "open", "object"] =
        Except.error (PyError.nameError ("PyTest")) :=
  ⟨by decide, setup_py_raises_nameerror ["print", "len", "open", "object"] (by decide)⟩

end Mirage

